import Mathlib

/-!
Verification of the overflow-policy arithmetic engine of `daw_integer`
(`include/daw/integers/daw_signed.h`).

The value of a `signed_integer<Bits>` is embedded as an `Int` together with
the width `w : Nat`; the representable range is `[intMin w, intMax w]` and
native twos-complement wraparound is `wrap w`.

The error-handling header (`impl/daw_signed_error_handling.h`) and the
primitive operation header (`impl/daw_signed_impl.h`) are not part of the
sources available here; the handler registry, the notifier functions and the
`checked_* / wrapped_* / debug_checked_*` primitives are therefore modelled
from the specification, as documented on each definition.  Everything else is
translated directly from `daw_signed.h`.
-/

namespace DawIntegers

/-- Error kinds delivered to registered handlers
(`SignedIntegerErrorType` in the sources: `Overflow`, `DivideByZero`). -/
inductive SignedIntegerErrorType where
  | Overflow
  | DivideByZero
  deriving DecidableEq, Repr

/-- Modelled from the spec: the process-wide error-handler registry of
`impl/daw_signed_error_handling.h` (missing from the sources).  It has two
independently settable slots, one for overflow and one for divide-by-zero.
For the shallow embedding only the presence of a callback in each slot is
relevant: the handler itself merely observes the error kind. -/
structure HandlerRegistry where
  hasOverflowHandler : Bool
  hasDivByZeroHandler : Bool
  deriving DecidableEq, Repr

/-- Modelled from the spec: the observable outcome of one arithmetic
operation.  `ok notes v` means the operation returned the value `v` after
synchronously delivering the error kinds `notes` (in order) to registered
handlers; `fatal e` means an error of kind `e` was detected while the
corresponding slot held no handler, so the default fatal/exception path was
taken and no value was produced. -/
inductive Outcome (α : Type) where
  | fatal (e : SignedIntegerErrorType)
  | ok (notes : List SignedIntegerErrorType) (val : α)
  deriving DecidableEq, Repr

/-- Smallest value of the `w`-bit twos-complement representation. -/
def intMin (w : Nat) : Int := -(2 ^ (w - 1))

/-- Largest value of the `w`-bit twos-complement representation. -/
def intMax (w : Nat) : Int := 2 ^ (w - 1) - 1

/-- Membership in the representable range of the `w`-bit representation. -/
def InRange (w : Nat) (a : Int) : Prop := intMin w ≤ a ∧ a ≤ intMax w

instance (w : Nat) (a : Int) : Decidable (InRange w a) :=
  inferInstanceAs (Decidable (And _ _))

/-- Native modulo-`2 ^ w` twos-complement wraparound: the unique value in
`[intMin w, intMax w]` congruent to `x` modulo `2 ^ w`. -/
def wrap (w : Nat) (x : Int) : Int :=
  (x + 2 ^ (w - 1)) % 2 ^ w - 2 ^ (w - 1)

/-- Modelled from the spec: `notify_overflow` of the missing error-handling
header.  With a handler in the overflow slot the handler is invoked
synchronously with the error kind and control returns; with no handler the
default behavior raises the fatal/exception path. -/
def notify_overflow (reg : HandlerRegistry) : Outcome Unit :=
  if reg.hasOverflowHandler then .ok [.Overflow] () else .fatal .Overflow

/-- Modelled from the spec: `notify_div_by_zero` of the missing
error-handling header, analogous to `notify_overflow`. -/
def notify_div_by_zero (reg : HandlerRegistry) : Outcome Unit :=
  if reg.hasDivByZeroHandler then .ok [.DivideByZero] () else .fatal .DivideByZero

/-- Sequencing of a notification with the value the operation then returns:
the fatal path propagates, otherwise the delivered notifications are kept. -/
def andThen (x : Outcome Unit) (v : Int) : Outcome Int :=
  match x with
  | .fatal e => .fatal e
  | .ok ns _ => .ok ns v

/-- Modelled from the spec: `would_overflow_add` — the mathematically exact
sum falls outside `[intMin w, intMax w]`. -/
def would_overflow_add (w : Nat) (a b : Int) : Bool :=
  decide (a + b < intMin w) || decide (intMax w < a + b)

/-- Modelled from the spec: `would_overflow_sub` — the mathematically exact
difference falls outside `[intMin w, intMax w]`. -/
def would_overflow_sub (w : Nat) (a b : Int) : Bool :=
  decide (a - b < intMin w) || decide (intMax w < a - b)

/-- Modelled from the spec: `would_overflow_mul` — the mathematically exact
product falls outside `[intMin w, intMax w]`. -/
def would_overflow_mul (w : Nat) (a b : Int) : Bool :=
  decide (a * b < intMin w) || decide (intMax w < a * b)

/-- Modelled from the spec: `would_overflow_neg` — true only when
`a = intMin w`. -/
def would_overflow_neg (w : Nat) (a : Int) : Bool :=
  decide (a = intMin w)

/-- Modelled from the spec: `is_div_by_zero` — true iff the divisor is 0. -/
def is_div_by_zero (b : Int) : Bool :=
  decide (b = 0)

/-- Modelled from the spec: `would_overflow_div` — true iff `a = intMin w`
and `b = -1`, the single division case whose magnitude exceeds `intMax w`. -/
def would_overflow_div (w : Nat) (a b : Int) : Bool :=
  decide (a = intMin w) && decide (b = -1)

/-- Modelled from the spec: `would_overflow_shl` — for the checked shift
family a shift amount `>= bit-width` or `< 0` is defined as overflow.  The
value operand is part of the signature the spec gives, but the condition
it states depends only on the count. -/
def would_overflow_shl (w : Nat) (a n : Int) : Bool :=
  decide (n < 0) || decide ((w : Int) ≤ n)

/-- Modelled from the spec: `checked_add` of the missing impl header.
Detect via predicate; if it fires, invoke the overflow notifier and return
the native-wrapped result (when the notifier returns); otherwise return the
exact sum. -/
def checked_add (w : Nat) (reg : HandlerRegistry) (a b : Int) : Outcome Int :=
  if would_overflow_add w a b then andThen (notify_overflow reg) (wrap w (a + b))
  else .ok [] (a + b)

/-- Modelled from the spec: `checked_sub` of the missing impl header,
analogous to `checked_add`. -/
def checked_sub (w : Nat) (reg : HandlerRegistry) (a b : Int) : Outcome Int :=
  if would_overflow_sub w a b then andThen (notify_overflow reg) (wrap w (a - b))
  else .ok [] (a - b)

/-- Modelled from the spec: `checked_mul` of the missing impl header,
analogous to `checked_add`. -/
def checked_mul (w : Nat) (reg : HandlerRegistry) (a b : Int) : Outcome Int :=
  if would_overflow_mul w a b then andThen (notify_overflow reg) (wrap w (a * b))
  else .ok [] (a * b)

/-- Modelled from the spec: `checked_neg` of the missing impl header.
Negating any value other than `intMin w` is exact; negating `intMin w`
notifies overflow and wraps (back to `intMin w`). -/
def checked_neg (w : Nat) (reg : HandlerRegistry) (a : Int) : Outcome Int :=
  if would_overflow_neg w a then andThen (notify_overflow reg) (wrap w (-a))
  else .ok [] (-a)

/-- Modelled from the spec: `checked_div` of the missing impl header.
Division by zero notifies the divide-by-zero slot (the spec assigns no
wrapped result to this case; the model keeps the dividend, a choice no
theorem below depends on).  The single overflow case `intMin w / -1`
notifies overflow and returns the wrapped quotient; otherwise the exact
truncated quotient is returned. -/
def checked_div (w : Nat) (reg : HandlerRegistry) (a b : Int) : Outcome Int :=
  if is_div_by_zero b then andThen (notify_div_by_zero reg) a
  else if would_overflow_div w a b then
    andThen (notify_overflow reg) (wrap w (Int.tdiv a b))
  else .ok [] (Int.tdiv a b)

/-- Modelled from the spec: `checked_rem` of the missing impl header.
Remainder by zero notifies the divide-by-zero slot (value as in
`checked_div`); every other truncated remainder is representable and is
returned exactly. -/
def checked_rem (w : Nat) (reg : HandlerRegistry) (a b : Int) : Outcome Int :=
  if is_div_by_zero b then andThen (notify_div_by_zero reg) a
  else .ok [] (Int.tmod a b)

/-- Modelled from the spec: `checked_shl` of the missing impl header
(called by `shl_checked`, daw_signed.h:546-549, and via `debug_checked_shl`
by `operator<<=`, daw_signed.h:533-537).  A count `< 0` or `>= w` notifies
overflow (no native result exists for such a shift; the model keeps the
value, a choice no theorem below depends on); a valid count returns the
native wrapped left shift. -/
def checked_shl (w : Nat) (reg : HandlerRegistry) (a n : Int) : Outcome Int :=
  if would_overflow_shl w a n then andThen (notify_overflow reg) a
  else .ok [] (wrap w (a * 2 ^ n.toNat))

/-- Modelled from the spec: `checked_shr` of the missing impl header
(called by `shr_checked`, daw_signed.h:595-598, and via `debug_checked_shr`
by `operator>>=`, daw_signed.h:582-586), analogous to `checked_shl`; a
valid count applies the arithmetic (sign-extending) right shift. -/
def checked_shr (w : Nat) (reg : HandlerRegistry) (a n : Int) : Outcome Int :=
  if would_overflow_shl w a n then andThen (notify_overflow reg) a
  else .ok [] (Int.fdiv a (2 ^ n.toNat))

/-- Modelled from the spec: `debug_checked_add` — in the checked build used
by the tests (`DAW_DEFAULT_SIGNED_CHECKING 0`) identical to `checked_add`. -/
def debug_checked_add (w : Nat) (reg : HandlerRegistry) (a b : Int) : Outcome Int :=
  checked_add w reg a b

/-- Modelled from the spec: `debug_checked_sub`, identical to `checked_sub`
in the checked build. -/
def debug_checked_sub (w : Nat) (reg : HandlerRegistry) (a b : Int) : Outcome Int :=
  checked_sub w reg a b

/-- Modelled from the spec: `debug_checked_mul`, identical to `checked_mul`
in the checked build. -/
def debug_checked_mul (w : Nat) (reg : HandlerRegistry) (a b : Int) : Outcome Int :=
  checked_mul w reg a b

/-- Modelled from the spec: `debug_checked_div`, identical to `checked_div`
in the checked build. -/
def debug_checked_div (w : Nat) (reg : HandlerRegistry) (a b : Int) : Outcome Int :=
  checked_div w reg a b

/-- Modelled from the spec: `debug_checked_shl`, identical to `checked_shl`
in the checked build. -/
def debug_checked_shl (w : Nat) (reg : HandlerRegistry) (a n : Int) : Outcome Int :=
  checked_shl w reg a n

/-- Modelled from the spec: `debug_checked_shr`, identical to `checked_shr`
in the checked build. -/
def debug_checked_shr (w : Nat) (reg : HandlerRegistry) (a n : Int) : Outcome Int :=
  checked_shr w reg a n

/-- Modelled from the spec: `wrapped_mul` of the missing impl header —
always the modulo-`2 ^ w` product, consulting no predicate or handler. -/
def wrapped_mul (w : Nat) (a b : Int) : Int :=
  wrap w (a * b)

/-- Embeds `signed_integer::negate_wrapped` (daw_signed.h:280-283):
`mul_wrapped( signed_integer( -1 ) )`. -/
def negate_wrapped (w : Nat) (a : Int) : Int :=
  wrapped_mul w a (-1)

/-- Embeds `operator-( signed_integer<Lhs>, signed_integer<Rhs> )`
(daw_signed.h:763-773).  The result type is the wider of the two operand
types (`int_result_t`); both operands convert losslessly into it, and the
body then executes `result += result_t( rhs.value( ) )`, i.e. debug-checked
addition of the promoted operands. -/
def sub_operator (wl wr : Nat) (reg : HandlerRegistry) (a b : Int) : Outcome Int :=
  debug_checked_add (max wl wr) reg a b

/-- Embeds `signed_integer::div_wrapped` (daw_signed.h:493-500): when
`value( ) == max( )` and the divisor is `-1` it returns `min( )`; every
other input falls through to `debug_checked_div`. -/
def div_wrapped (w : Nat) (reg : HandlerRegistry) (a b : Int) : Outcome Int :=
  if a = intMax w ∧ b = -1 then .ok [] (intMin w)
  else debug_checked_div w reg a b

/-- Embeds `signed_integer::rem_saturated` (daw_signed.h:525-531): when
`value( ) == min( )` and the divisor is `-1` it returns `0`; every other
input falls through to `debug_checked_div`. -/
def rem_saturated (w : Nat) (reg : HandlerRegistry) (a b : Int) : Outcome Int :=
  if a = intMin w ∧ b = -1 then .ok [] 0
  else debug_checked_div w reg a b

/-- Embeds the converting constructor `signed_integer( I v )`
(daw_signed.h:120-130) for a source type `I` that is not losslessly
convertible to the destination: the member is initialized with
`static_cast<value_type>( v )` (the wrapped value) and
`on_signed_integer_overflow( )` — modelled from the spec as the overflow
notifier, since the error-handling header is missing — fires when `v` is
outside the destination range. -/
def signed_integer_from_native (w : Nat) (reg : HandlerRegistry) (v : Int) : Outcome Int :=
  if v < intMin w ∨ intMax w < v then andThen (notify_overflow reg) (wrap w v)
  else .ok [] (wrap w v)

/-- Embeds `signed_integer::shl_overflowing` (daw_signed.h:556-580).  A
negative count notifies overflow and returns the value unchanged; a zero
count returns the value; otherwise the count is masked with
`sizeof( value_type ) * CHAR_BIT - 1` and the native shift is applied.  For
the 8- and 16-bit widths the C++ shift is computed after integer promotion
to the 32-bit `int`, so it is mathematically exact and the converting
constructor of the result range-checks it (notifying overflow when out of
range); for the 32- and 64-bit widths the native shift itself wraps and the
constructor performs no check. -/
def shl_overflowing (w : Nat) (reg : HandlerRegistry) (a : Int) (n : Int) : Outcome Int :=
  if n < 0 then andThen (notify_overflow reg) a
  else if n = 0 then .ok [] a
  else
    let m := Nat.land n.toNat (w - 1)
    if w < 32 then
      let r := a * 2 ^ m
      if r < intMin w ∨ intMax w < r then andThen (notify_overflow reg) (wrap w r)
      else .ok [] r
    else .ok [] (wrap w (a * 2 ^ m))

/-- Embeds `signed_integer::shr_overflowing` (daw_signed.h:605-629),
analogous to `shl_overflowing`; the native `>>` on a signed value is the
arithmetic (sign-extending) shift, i.e. floor division by `2 ^ m`. -/
def shr_overflowing (w : Nat) (reg : HandlerRegistry) (a : Int) (n : Int) : Outcome Int :=
  if n < 0 then andThen (notify_overflow reg) a
  else if n = 0 then .ok [] a
  else
    let m := Nat.land n.toNat (w - 1)
    let r := Int.fdiv a (2 ^ m)
    if w < 32 then
      if r < intMin w ∨ intMax w < r then andThen (notify_overflow reg) (wrap w r)
      else .ok [] r
    else .ok [] r

/-- Bitwise or of two `w`-bit values as `operator|` performs it on the
native `value_type`: the twos-complement bit pattern of a value `x` in
range is `x % 2 ^ w`, the patterns are or-ed, and the result pattern is
reinterpreted as a signed value. -/
def bit_or (w : Nat) (x y : Int) : Int :=
  wrap w (Int.ofNat (Nat.lor (x % 2 ^ w).toNat (y % 2 ^ w).toNat))

/-- Sequencing of the two shift sub-expressions of a rotate with the final
`operator|`: notifications of both sides are delivered, the values are
combined with `bit_or`. -/
def or_combine (w : Nat) : Outcome Int → Outcome Int → Outcome Int
  | .fatal e, _ => .fatal e
  | .ok _ _, .fatal e => .fatal e
  | .ok ns v, .ok ms u => .ok (ns ++ ms) (bit_or w v u)

/-- Embeds `signed_integer::rotate_left` (daw_signed.h:631-635):
`shl_overflowing( n ) | shr_overflowing( sizeof( value_type ) * CHAR_BIT - n )`.
The count parameter is the unsigned `std::size_t`, embedded as `Nat` (the
complementary count `w - n` matches the C++ `size_t` arithmetic for
`n ≤ w`, which covers the range the claims quantify over). -/
def rotate_left (w : Nat) (reg : HandlerRegistry) (a : Int) (n : Nat) : Outcome Int :=
  or_combine w (shl_overflowing w reg a n) (shr_overflowing w reg a ((w - n : Nat) : Int))

/-- Embeds `signed_integer::rotate_right` (daw_signed.h:637-641):
`shr_overflowing( n ) | shl_overflowing( sizeof( value_type ) * CHAR_BIT - n )`. -/
def rotate_right (w : Nat) (reg : HandlerRegistry) (a : Int) (n : Nat) : Outcome Int :=
  or_combine w (shr_overflowing w reg a n) (shl_overflowing w reg a ((w - n : Nat) : Int))

/-- An operation outcome on which the overflow notifier fired: either the
fatal overflow path was taken, or an overflow notification was delivered to
the registered handler. -/
def firesOverflow : Outcome Int → Prop
  | .fatal e => e = SignedIntegerErrorType.Overflow
  | .ok ns _ => SignedIntegerErrorType.Overflow ∈ ns

instance (o : Outcome Int) : Decidable (firesOverflow o) :=
  match o with
  | .fatal _ => inferInstanceAs (Decidable (_ = _))
  | .ok _ _ => inferInstanceAs (Decidable (_ ∈ _))

theorem one_le_two_pow_int (k : Nat) : (1 : Int) ≤ 2 ^ k :=
  one_le_pow₀ (by norm_num)

theorem intMin_le_neg_one (w : Nat) : intMin w ≤ -1 := by
  have h := one_le_two_pow_int (w - 1)
  simp only [intMin]
  omega

theorem intMax_nonneg (w : Nat) : 0 ≤ intMax w := by
  have h := one_le_two_pow_int (w - 1)
  simp only [intMax]
  omega

theorem two_pow_split (w : Nat) (hw : 0 < w) :
    (2 : Int) ^ w = 2 ^ (w - 1) + 2 ^ (w - 1) := by
  have h : w - 1 + 1 = w := by omega
  calc (2 : Int) ^ w = 2 ^ (w - 1 + 1) := by rw [h]
  _ = 2 ^ (w - 1) * 2 := pow_succ 2 (w - 1)
  _ = 2 ^ (w - 1) + 2 ^ (w - 1) := by ring

theorem wrap_eq_of_inRange (w : Nat) (hw : 0 < w) {x : Int}
    (hx : InRange w x) : wrap w x = x := by
  obtain ⟨h1, h2⟩ := hx
  simp only [intMin] at h1
  simp only [intMax] at h2
  have hsplit := two_pow_split w hw
  have hlow : 0 ≤ x + 2 ^ (w - 1) := by omega
  have hhigh : x + 2 ^ (w - 1) < 2 ^ w := by omega
  simp only [wrap, Int.emod_eq_of_lt hlow hhigh]
  omega

theorem ediv_mem_of_mem {lo hi k a : Int} (hk : 0 < k) (hlo : lo ≤ -1)
    (hhi : 0 ≤ hi) (h1 : lo ≤ a) (h2 : a ≤ hi) : lo ≤ a / k ∧ a / k ≤ hi := by
  have hmod : 0 ≤ a % k := Int.emod_nonneg a (ne_of_gt hk)
  have hmod2 : a % k < k := Int.emod_lt_of_pos a hk
  have hdiv : k * (a / k) + a % k = a := Int.ediv_add_emod a k
  constructor
  · have hprod : (k - 1) * (lo + 1) ≤ 0 :=
      mul_nonpos_of_nonneg_of_nonpos (by omega) (by omega)
    have hmul : k * lo ≤ k * (a / k) := by nlinarith
    exact le_of_mul_le_mul_left hmul hk
  · have hprod : 0 ≤ (k - 1) * hi := mul_nonneg (by omega) hhi
    have hmul : k * (a / k) ≤ k * hi := by nlinarith
    exact le_of_mul_le_mul_left hmul hk

theorem fdiv_pow_inRange (w m : Nat) {a : Int}
    (ha : InRange w a) : InRange w (Int.fdiv a (2 ^ m)) := by
  have hk : (0 : Int) < 2 ^ m := by positivity
  rw [Int.fdiv_eq_ediv a (le_of_lt hk)]
  exact ediv_mem_of_mem hk (intMin_le_neg_one w) (intMax_nonneg w) ha.1 ha.2

theorem land_mask_eq_mod (w n : Nat)
    (hw : w = 8 ∨ w = 16 ∨ w = 32 ∨ w = 64) :
    Nat.land n (w - 1) = n % w := by
  have h : ∀ k : Nat, Nat.land n (2 ^ k - 1) = n % 2 ^ k := fun k =>
    Nat.and_pow_two_sub_one_eq_mod n k
  rcases hw with h8 | h16 | h32 | h64
  · rw [h8]; exact h 3
  · rw [h16]; exact h 4
  · rw [h32]; exact h 5
  · rw [h64]; exact h 6

/-- The embedding reproduces the repository test
`0x10000b3_i32.rotate_left( 8 ) == 0xb301_i32`
(daw_integers_signed_test.cpp:302-306). -/
theorem rotate_left_matches_repo_test :
    rotate_left 32 ⟨true, true⟩ 0x10000b3 8 = .ok [] 0xb301 := by decide

/-- The embedding reproduces the repository test
`0xb301_i32.rotate_right( 8 ) == 0x10000b3_i32`
(daw_integers_signed_test.cpp:308-311). -/
theorem rotate_right_matches_repo_test :
    rotate_right 32 ⟨true, true⟩ 0xb301 8 = .ok [] 0x10000b3 := by decide

/-- C1: for every checked (and, identically, debug-checked) operation of
the engine — add, sub, mul, neg, div, rem and the shifts — that detects an
overflow or a division/remainder by zero: with no handler in the
corresponding slot the operation takes the fatal/exception path and returns
no (wrapped) value; with a handler registered, the handler is invoked
synchronously with the error kind and the operation returns the native
twos-complement-wrapped result (for division by zero and for a shift count
outside `[0, w)`, to which no native result is assigned, it returns with
the notification delivered). -/
theorem checked_error_contract (w : Nat) (reg : HandlerRegistry) (a b : Int) :
    (would_overflow_add w a b = true →
      (reg.hasOverflowHandler = false → checked_add w reg a b = .fatal .Overflow) ∧
      (reg.hasOverflowHandler = true →
        checked_add w reg a b = .ok [.Overflow] (wrap w (a + b)))) ∧
    (would_overflow_sub w a b = true →
      (reg.hasOverflowHandler = false → checked_sub w reg a b = .fatal .Overflow) ∧
      (reg.hasOverflowHandler = true →
        checked_sub w reg a b = .ok [.Overflow] (wrap w (a - b)))) ∧
    (would_overflow_mul w a b = true →
      (reg.hasOverflowHandler = false → checked_mul w reg a b = .fatal .Overflow) ∧
      (reg.hasOverflowHandler = true →
        checked_mul w reg a b = .ok [.Overflow] (wrap w (a * b)))) ∧
    (would_overflow_neg w a = true →
      (reg.hasOverflowHandler = false → checked_neg w reg a = .fatal .Overflow) ∧
      (reg.hasOverflowHandler = true →
        checked_neg w reg a = .ok [.Overflow] (wrap w (-a)))) ∧
    (is_div_by_zero b = true →
      (reg.hasDivByZeroHandler = false →
        checked_div w reg a b = .fatal .DivideByZero ∧
        checked_rem w reg a b = .fatal .DivideByZero) ∧
      (reg.hasDivByZeroHandler = true →
        (∃ v, checked_div w reg a b = .ok [.DivideByZero] v) ∧
        (∃ v, checked_rem w reg a b = .ok [.DivideByZero] v))) ∧
    (is_div_by_zero b = false → would_overflow_div w a b = true →
      (reg.hasOverflowHandler = false → checked_div w reg a b = .fatal .Overflow) ∧
      (reg.hasOverflowHandler = true →
        checked_div w reg a b = .ok [.Overflow] (wrap w (Int.tdiv a b)))) ∧
    (would_overflow_shl w a b = true →
      (reg.hasOverflowHandler = false →
        checked_shl w reg a b = .fatal .Overflow ∧
        checked_shr w reg a b = .fatal .Overflow) ∧
      (reg.hasOverflowHandler = true →
        (∃ v, checked_shl w reg a b = .ok [.Overflow] v) ∧
        (∃ v, checked_shr w reg a b = .ok [.Overflow] v))) := by
  refine ⟨?_, ?_, ?_, ?_, ?_, ?_, ?_⟩
  · intro hov
    exact ⟨fun hreg => by simp [checked_add, hov, andThen, notify_overflow, hreg],
           fun hreg => by simp [checked_add, hov, andThen, notify_overflow, hreg]⟩
  · intro hov
    exact ⟨fun hreg => by simp [checked_sub, hov, andThen, notify_overflow, hreg],
           fun hreg => by simp [checked_sub, hov, andThen, notify_overflow, hreg]⟩
  · intro hov
    exact ⟨fun hreg => by simp [checked_mul, hov, andThen, notify_overflow, hreg],
           fun hreg => by simp [checked_mul, hov, andThen, notify_overflow, hreg]⟩
  · intro hov
    exact ⟨fun hreg => by simp [checked_neg, hov, andThen, notify_overflow, hreg],
           fun hreg => by simp [checked_neg, hov, andThen, notify_overflow, hreg]⟩
  · intro hz
    refine ⟨fun hreg => ?_, fun hreg => ?_⟩
    · constructor
      · simp [checked_div, hz, andThen, notify_div_by_zero, hreg]
      · simp [checked_rem, hz, andThen, notify_div_by_zero, hreg]
    · constructor
      · exact ⟨a, by simp [checked_div, hz, andThen, notify_div_by_zero, hreg]⟩
      · exact ⟨a, by simp [checked_rem, hz, andThen, notify_div_by_zero, hreg]⟩
  · intro hz hov
    exact ⟨fun hreg => by
            simp [checked_div, hz, hov, andThen, notify_overflow, hreg],
           fun hreg => by
            simp [checked_div, hz, hov, andThen, notify_overflow, hreg]⟩
  · intro hov
    refine ⟨fun hreg => ?_, fun hreg => ?_⟩
    · constructor
      · simp [checked_shl, hov, andThen, notify_overflow, hreg]
      · simp [checked_shr, hov, andThen, notify_overflow, hreg]
    · constructor
      · exact ⟨a, by simp [checked_shl, hov, andThen, notify_overflow, hreg]⟩
      · exact ⟨a, by simp [checked_shr, hov, andThen, notify_overflow, hreg]⟩

/-- Witness for C1 at 8-bit `127 + 1` (overflow), `10 / 0`
(divide-by-zero) and `1 << 8` (out-of-range checked shift count): fatal
without a handler, wrapped value (or notified return) with one. -/
theorem checked_error_contract_witness :
    checked_add 8 ⟨false, false⟩ 127 1 = .fatal .Overflow ∧
    checked_add 8 ⟨true, true⟩ 127 1 = .ok [.Overflow] (wrap 8 (127 + 1)) ∧
    checked_div 8 ⟨false, false⟩ 10 0 = .fatal .DivideByZero ∧
    checked_shl 8 ⟨false, false⟩ 1 8 = .fatal .Overflow ∧
    (∃ v, checked_shl 8 ⟨true, true⟩ 1 8 = .ok [.Overflow] v) := by
  refine ⟨?_, ?_, ?_, ?_, ?_⟩
  · exact ((checked_error_contract 8 ⟨false, false⟩ 127 1).1 (by decide)).1 rfl
  · exact ((checked_error_contract 8 ⟨true, true⟩ 127 1).1 (by decide)).2 rfl
  · exact (((checked_error_contract 8 ⟨false, false⟩ 10 0).2.2.2.2.1
      (by decide)).1 rfl).1
  · exact (((checked_error_contract 8 ⟨false, false⟩ 1 8).2.2.2.2.2.2
      (by decide)).1 rfl).1
  · exact (((checked_error_contract 8 ⟨true, true⟩ 1 8).2.2.2.2.2.2
      (by decide)).2 rfl).1

/-- C2, evaluation at the failing input: the plain binary
`operator-` between two `signed_integer` values of width 8 applied to
`a = 5`, `b = 3` returns `8`, the debug-checked sum, with no notification
— not the difference `5 - 3 = 2` the claim requires. -/
theorem sub_operator_adds_at_5_3 :
    sub_operator 8 8 ⟨true, true⟩ 5 3 = .ok [] 8 ∧ (8 : Int) ≠ 5 - 3 := by
  decide

/-- C3, evaluation at the failing inputs (width 8): `div_wrapped` returns
`min = -128` for `max / -1 = 127 / -1` (the claim requires the exact
quotient `-127`), while for `min / -1 = -128 / -1` it falls through to the
debug-checked division, which consults the overflow notifier — delivering
an overflow notification when a handler is registered and taking the fatal
path when none is (the claim requires no predicate or handler be
consulted). -/
theorem div_wrapped_special_case_misplaced :
    div_wrapped 8 ⟨true, true⟩ 127 (-1) = .ok [] (-128) ∧
    (-128 : Int) ≠ Int.tdiv 127 (-1) ∧
    div_wrapped 8 ⟨true, true⟩ (-128) (-1) = .ok [.Overflow] (-128) ∧
    div_wrapped 8 ⟨false, false⟩ (-128) (-1) = .fatal .Overflow := by
  decide

/-- C4, evaluation at the failing input (width 8): `rem_saturated` on
`a = 7`, `b = 2` falls through to the debug-checked division and returns
the quotient `3`, not the remainder `7 % 2 = 1` the claim requires. -/
theorem rem_saturated_returns_quotient :
    rem_saturated 8 ⟨true, true⟩ 7 2 = .ok [] 3 ∧
    Int.tmod 7 2 = 1 ∧ (3 : Int) ≠ 1 := by
  decide

/-- C5, evaluation at the failing input (width 8, handlers registered so
every operation returns a value): `rotate_left` composes the shifts with
the arithmetic (sign-extending) right shift, so
`(-128).rotate_left(1) = -1` and `(-1).rotate_right(1) = -1`; the round
trip yields `-1`, not the original `-128` the claim requires. -/
theorem rotate_round_trip_broken_at_neg128 :
    rotate_left 8 ⟨true, true⟩ (-128) 1 = .ok [.Overflow] (-1) ∧
    rotate_right 8 ⟨true, true⟩ (-1) 1 = .ok [] (-1) ∧
    (-1 : Int) ≠ -128 := by
  decide

/-- C6: whenever the mathematical sum of `a` and `b` is representable in
width `w`, `add_checked` returns exactly `a + b` and neither notifier
fires (no notification is delivered and the fatal path is not taken). -/
theorem add_checked_exact_when_representable (w : Nat) (reg : HandlerRegistry)
    (a b : Int) (h : InRange w (a + b)) :
    checked_add w reg a b = .ok [] (a + b) := by
  obtain ⟨h1, h2⟩ := h
  have hov : would_overflow_add w a b = false := by
    simp [would_overflow_add]
    omega
  simp [checked_add, hov]

/-- Witness for C6 at width 8, `a = 100`, `b = 27`. -/
theorem add_checked_exact_witness :
    checked_add 8 ⟨false, false⟩ 100 27 = .ok [] (100 + 27) :=
  add_checked_exact_when_representable 8 ⟨false, false⟩ 100 27 (by decide)

/-- C8: `negate_checked` fires the overflow notifier iff `a = intMin w`
(and is fatal there when no handler is registered); for every other `a` it
returns the exact negation with no notification. -/
theorem negate_checked_contract (w : Nat) (reg : HandlerRegistry) (a : Int) :
    (a = intMin w →
      firesOverflow (checked_neg w reg a) ∧
      (reg.hasOverflowHandler = false → checked_neg w reg a = .fatal .Overflow)) ∧
    (a ≠ intMin w → checked_neg w reg a = .ok [] (-a)) := by
  constructor
  · intro ha
    have hov : would_overflow_neg w a = true := by simp [would_overflow_neg, ha]
    constructor
    · rcases hreg : reg.hasOverflowHandler with _ | _ <;>
        simp [checked_neg, hov, andThen, notify_overflow, hreg, firesOverflow]
    · intro hreg
      simp [checked_neg, hov, andThen, notify_overflow, hreg]
  · intro ha
    have hov : would_overflow_neg w a = false := by simp [would_overflow_neg, ha]
    simp [checked_neg, hov]

/-- Witness for C8 at width 8: `(-128).negate_checked()` is fatal with no
handler registered, and `(5).negate_checked() = -5` exactly. -/
theorem negate_checked_contract_witness :
    checked_neg 8 ⟨false, false⟩ (-128) = .fatal .Overflow ∧
    checked_neg 8 ⟨false, false⟩ 5 = .ok [] (-5) := by
  constructor
  · exact ((negate_checked_contract 8 ⟨false, false⟩ (-128)).1 (by decide)).2 rfl
  · exact (negate_checked_contract 8 ⟨false, false⟩ 5).2 (by decide)

/-- C9: for every width `w > 0`, `intMin w` is a fixed point of
multiplication by `-1` under the wrapped policy, and hence of
`negate_wrapped`, which is defined as `mul_wrapped(-1)`. -/
theorem min_mul_wrapped_neg_one_fixed_point (w : Nat) (hw : 0 < w) :
    wrapped_mul w (intMin w) (-1) = intMin w ∧
    negate_wrapped w (intMin w) = intMin w := by
  have hsplit := two_pow_split w hw
  have hpos : (0 : Int) < 2 ^ w := by positivity
  have hmain : wrapped_mul w (intMin w) (-1) = intMin w := by
    simp only [wrapped_mul, wrap, intMin]
    have hsum : (-2 ^ (w - 1) * -1 + 2 ^ (w - 1) : Int) = 2 ^ w := by
      rw [hsplit]; ring
    rw [hsum, Int.emod_self]
    ring
  exact ⟨hmain, hmain⟩

/-- Witness for C9 at the 64-bit width named by the spec. -/
theorem min_mul_wrapped_neg_one_witness :
    wrapped_mul 64 (intMin 64) (-1) = intMin 64 :=
  (min_mul_wrapped_neg_one_fixed_point 64 (by decide)).1

/-- C7: for every supported width and every in-range value, a negative
shift count makes both `shl_overflowing` and `shr_overflowing` fire the
overflow notifier, while a non-negative count is masked into
`[0, bit_width - 1]` (counts `≥ w` behave as `n % w`): any value returned
by `shl_overflowing` is the wrapped left shift by the masked count, and
`shr_overflowing` returns the arithmetic right shift by the masked count
with no notification. -/
theorem shift_overflowing_mask_contract (w : Nat)
    (hw : w = 8 ∨ w = 16 ∨ w = 32 ∨ w = 64) (reg : HandlerRegistry)
    (a : Int) (ha : InRange w a) (n : Int) :
    (n < 0 → firesOverflow (shl_overflowing w reg a n) ∧
      firesOverflow (shr_overflowing w reg a n)) ∧
    (0 ≤ n → ∀ ns v, shl_overflowing w reg a n = .ok ns v →
      v = wrap w (a * 2 ^ (n.toNat % w))) ∧
    (0 ≤ n → shr_overflowing w reg a n = .ok [] (Int.fdiv a (2 ^ (n.toNat % w)))) := by
  have hw0 : 0 < w := by rcases hw with h | h | h | h <;> omega
  refine ⟨?_, ?_, ?_⟩
  · intro hn
    constructor
    · simp only [shl_overflowing, if_pos hn]
      rcases hreg : reg.hasOverflowHandler with _ | _ <;>
        simp [andThen, notify_overflow, hreg, firesOverflow]
    · simp only [shr_overflowing, if_pos hn]
      rcases hreg : reg.hasOverflowHandler with _ | _ <;>
        simp [andThen, notify_overflow, hreg, firesOverflow]
  · intro hn ns v heq
    have hnlt : ¬ n < 0 := not_lt.mpr hn
    by_cases hn0 : n = 0
    · subst hn0
      simp only [shl_overflowing, if_neg hnlt, if_pos rfl] at heq
      cases heq
      simp only [Int.toNat_zero, Nat.zero_mod, pow_zero, mul_one]
      exact (wrap_eq_of_inRange w hw0 ha).symm
    · have hmask := land_mask_eq_mod w n.toNat hw
      simp only [shl_overflowing, if_neg hnlt, if_neg hn0, hmask] at heq
      by_cases h32 : w < 32
      · rw [if_pos h32] at heq
        by_cases hr : a * 2 ^ (n.toNat % w) < intMin w ∨
            intMax w < a * 2 ^ (n.toNat % w)
        · rw [if_pos hr] at heq
          rcases hreg : reg.hasOverflowHandler with _ | _ <;>
            simp [andThen, notify_overflow, hreg] at heq
          exact heq.2.symm
        · rw [if_neg hr] at heq
          cases heq
          push_neg at hr
          exact (wrap_eq_of_inRange w hw0 hr).symm
      · rw [if_neg h32] at heq
        cases heq
        rfl
  · intro hn
    have hnlt : ¬ n < 0 := not_lt.mpr hn
    by_cases hn0 : n = 0
    · subst hn0
      simp only [shr_overflowing, if_neg hnlt]
      norm_num [Int.fdiv_one]
    · have hmask := land_mask_eq_mod w n.toNat hw
      have hrange := fdiv_pow_inRange w (n.toNat % w) ha
      have hcond : ¬ (Int.fdiv a (2 ^ (n.toNat % w)) < intMin w ∨
          intMax w < Int.fdiv a (2 ^ (n.toNat % w))) := by
        obtain ⟨h1, h2⟩ := hrange
        omega
      by_cases h32 : w < 32
      · simp only [shr_overflowing, if_neg hnlt, if_neg hn0, hmask,
          if_pos h32, if_neg hcond]
      · simp only [shr_overflowing, if_neg hnlt, if_neg hn0, hmask,
          if_neg h32]

/-- Witness for C7 at width 8: a negative count fires the overflow
notifier, and the count 9 behaves as `9 % 8 = 1`. -/
theorem shift_overflowing_mask_witness :
    firesOverflow (shl_overflowing 8 ⟨true, true⟩ 5 (-1)) ∧
    shr_overflowing 8 ⟨true, true⟩ 5 9 =
      .ok [] (Int.fdiv 5 (2 ^ ((9 : Int).toNat % 8))) := by
  constructor
  · exact ((shift_overflowing_mask_contract 8 (by decide) ⟨true, true⟩ 5
      (by decide) (-1)).1 (by decide)).1
  · exact (shift_overflowing_mask_contract 8 (by decide) ⟨true, true⟩ 5
      (by decide) 9).2.2 (by decide)

/-- C10: constructing a `signed_integer<w>` from a native integral value
of a type that is not losslessly convertible: an out-of-range `v` fires
the overflow notifier and any constructed object holds the value `v`
wrapped modulo `2 ^ w` reinterpreted as signed; an in-range `v` is stored
exactly with no notification. -/
theorem ctor_checked_contract (w : Nat) (hw : 0 < w) (reg : HandlerRegistry)
    (v : Int) :
    ((v < intMin w ∨ intMax w < v) →
      firesOverflow (signed_integer_from_native w reg v) ∧
      (∀ ns x, signed_integer_from_native w reg v = .ok ns x → x = wrap w v)) ∧
    (InRange w v → signed_integer_from_native w reg v = .ok [] v) := by
  constructor
  · intro hout
    constructor
    · simp only [signed_integer_from_native, if_pos hout]
      rcases hreg : reg.hasOverflowHandler with _ | _ <;>
        simp [andThen, notify_overflow, hreg, firesOverflow]
    · intro ns x heq
      simp only [signed_integer_from_native, if_pos hout] at heq
      rcases hreg : reg.hasOverflowHandler with _ | _ <;>
        simp [andThen, notify_overflow, hreg] at heq
      exact heq.2.symm
  · intro hin
    have hcond : ¬ (v < intMin w ∨ intMax w < v) := by
      obtain ⟨h1, h2⟩ := hin
      omega
    simp only [signed_integer_from_native, if_neg hcond]
    rw [wrap_eq_of_inRange w hw hin]

/-- Witness for C10 at width 8: `v = 300` notifies overflow and is stored
as `300 mod 256 = 44`; `v = 5` is stored exactly with no notification. -/
theorem ctor_checked_contract_witness :
    signed_integer_from_native 8 ⟨true, true⟩ 300 = .ok [.Overflow] (wrap 8 300) ∧
    signed_integer_from_native 8 ⟨false, false⟩ 5 = .ok [] 5 := by
  constructor
  · have h := ((ctor_checked_contract 8 (by decide) ⟨true, true⟩ 300).1
      (by decide)).2
    have heval : signed_integer_from_native 8 ⟨true, true⟩ 300 =
        .ok [.Overflow] 44 := by decide
    rw [heval] at h ⊢
    rw [h [.Overflow] 44 rfl]
  · exact (ctor_checked_contract 8 (by decide) ⟨false, false⟩ 5).2 (by decide)

end DawIntegers
